import Mathlib

/-!
Shallow embedding of the jquants-dbt-pipeline data-fetch core
(src/jquants_pipeline/client.py and the storage part of
src/jquants_pipeline/cli.py), together with theorems settling the
spec claims about it.

Modelling choices:
* An HTTP server is a pure oracle `String → Params → Nat → Response α`:
  given the endpoint, the query parameters and the attempt index of the
  current request, it yields the response (status, JSON body, error
  message).  Records are an opaque type `α` (the core is schema-agnostic).
* Side effects relevant to the claims — `time.sleep` durations and the
  number of HTTP calls issued — are collected in a `Trace`.
  Sleep durations are modelled as rationals (`float` in the source).
* Python dictionaries passed by reference are modelled, where aliasing
  matters, by a `Heap` of dictionaries addressed by natural-number
  references; `dict(params)` is an allocation of a fresh reference.
* Fallible code returns `Except`; the `while`-loop of the paginator is
  fuel-indexed, `none` standing for a run that exceeds the fuel.
-/

namespace JQuants

/-- Query parameters: a Python `dict[str, str]` as an association list
in insertion order. -/
abbrev Params := List (String × String)

/-- Dictionary lookup, `d.get(k)`. -/
def dictGet : Params → String → Option String
  | [], _ => none
  | (k', v) :: rest, k => if k' = k then some v else dictGet rest k

/-- Dictionary update `d[k] = v`: replaces in place when the key exists,
appends otherwise (Python dict insertion-order semantics). -/
def dictSet : Params → String → String → Params
  | [], k, v => [(k, v)]
  | (k', v') :: rest, k, v =>
    if k' = k then (k, v) :: rest else (k', v') :: dictSet rest k v

/-- Retry configuration, `RetryConfig` of client.py (lines 39-45).
`retry_delay` and `request_interval` are seconds (floats in the source). -/
structure RetryConfig where
  max_retries : Nat := 3
  retry_delay : ℚ := 3
  request_interval : ℚ := 1 / 2
deriving Repr, DecidableEq

/-- JSON body of a response as consumed by the client:
`result.get("data", [])` and the optional `"pagination_key"` entry. -/
structure Body (α : Type) where
  data : List α
  pagination_key : Option String := none
deriving Repr, DecidableEq

/-- An HTTP response: status code, parsed JSON body, and the
server-provided error message extracted by `_extract_error_message`. -/
structure Response (α : Type) where
  status : Nat
  body : Body α
  message : String := ""
deriving Repr, DecidableEq

/-- Errors the transport can raise: `AuthenticationError` (a
`JQuantsError`, NOT a `requests.HTTPError`) and `requests.HTTPError`
carrying the status of the offending response. -/
inductive GetError where
  | auth (status : Nat) (msg : String)
  | http (status : Nat)
deriving Repr, DecidableEq

/-- Observable side effects of a run: the `time.sleep` durations in
chronological order and the number of HTTP requests issued. -/
structure Trace where
  sleeps : List ℚ := []
  calls : Nat := 0
deriving Repr, DecidableEq

/-- Sequencing of effect traces. -/
def Trace.append (t₁ t₂ : Trace) : Trace :=
  ⟨t₁.sleeps ++ t₂.sleeps, t₁.calls + t₂.calls⟩

/-- Record one further sleep at the end of a trace. -/
def Trace.addSleep (t : Trace) (q : ℚ) : Trace :=
  ⟨t.sleeps ++ [q], t.calls⟩

@[simp] theorem Trace.append_sleeps (t₁ t₂ : Trace) :
    (t₁.append t₂).sleeps = t₁.sleeps ++ t₂.sleeps := rfl

@[simp] theorem Trace.append_calls (t₁ t₂ : Trace) :
    (t₁.append t₂).calls = t₁.calls + t₂.calls := rfl

@[simp] theorem Trace.addSleep_sleeps (t : Trace) (q : ℚ) :
    (t.addSleep q).sleeps = t.sleeps ++ [q] := rfl

@[simp] theorem Trace.addSleep_calls (t : Trace) (q : ℚ) :
    (t.addSleep q).calls = t.calls := rfl

instance {ε α : Type} [DecidableEq ε] [DecidableEq α] : DecidableEq (Except ε α) := fun x y =>
  match x, y with
  | Except.ok a, Except.ok b =>
    if h : a = b then isTrue (h ▸ rfl) else isFalse (fun hc => h (Except.ok.inj hc))
  | Except.error a, Except.error b =>
    if h : a = b then isTrue (h ▸ rfl) else isFalse (fun hc => h (Except.error.inj hc))
  | Except.ok _, Except.error _ => isFalse (fun hc => Except.noConfusion hc)
  | Except.error _, Except.ok _ => isFalse (fun hc => Except.noConfusion hc)

/-- Attempt loop of `JQuantsClient._get` (client.py lines 208-232):
`for attempt in range(config.max_retries)` with `attempt` the current
attempt index and the second argument the remaining attempts.
Per attempt: status 401/403 raises `AuthenticationError` at once;
status 429 sleeps `retry_delay * (attempt + 1)` and continues;
any other status goes through `raise_for_status` (an `HTTPError` for
4xx/5xx) and otherwise the JSON body is returned.  When the attempt
budget is exhausted (which, for a positive budget, can only happen after
a final 429) the source re-runs `raise_for_status` on the last response,
raising `HTTPError` with status 429. -/
def getAttempts (server : String → Params → Nat → Response α) (delay : ℚ)
    (endpoint : String) (ps : Params) : Nat → Nat → Except GetError (Body α) × Trace
  | _attempt, 0 => (Except.error (GetError.http 429), ⟨[], 0⟩)
  | attempt, rem + 1 =>
    let r := server endpoint ps attempt
    if r.status = 401 ∨ r.status = 403 then
      (Except.error (GetError.auth r.status r.message), ⟨[], 1⟩)
    else if r.status = 429 then
      let rest := getAttempts server delay endpoint ps (attempt + 1) rem
      (rest.1, ⟨delay * ((attempt : ℚ) + 1) :: rest.2.sleeps, rest.2.calls + 1⟩)
    else if 400 ≤ r.status ∧ r.status < 600 then
      (Except.error (GetError.http r.status), ⟨[], 1⟩)
    else
      (Except.ok r.body, ⟨[], 1⟩)

/-- Transport operation `JQuantsClient._get` (client.py lines 203-232). -/
def _get (server : String → Params → Nat → Response α) (cfg : RetryConfig)
    (endpoint : String) (ps : Params) : Except GetError (Body α) × Trace :=
  getAttempts server cfg.retry_delay endpoint ps 0 cfg.max_retries

/-- A store of Python dictionaries addressed by references (their id),
used to model mutation and aliasing of `params` dictionaries. -/
abbrev Heap := List Params

/-- Dereference: the dictionary a reference points to. -/
def hget (h : Heap) (r : Nat) : Params := h.getD r []

/-- In-place update of the dictionary a reference points to. -/
def hset (h : Heap) (r : Nat) (d : Params) : Heap := h.set r d

/-- The `while "pagination_key" in result` loop of
`JQuantsClient._get_all_pages` (client.py lines 240-244), fuel-indexed
by the number of further loop iterations allowed; `p` is the reference
to the local `params` dictionary, `result` the body of the previous
call, `data` the accumulator.  Each iteration mutates `params` in place
(`params["pagination_key"] = result["pagination_key"]`), re-issues `_get`
and extends `data` with the new page's records. -/
def pagAuxH (server : String → Params → Nat → Response α) (cfg : RetryConfig)
    (endpoint : String) : Nat → Heap → Nat → Body α → List α → Trace →
    Option (Except GetError (List α) × Trace × Heap)
  | 0, h, _p, result, data, tr =>
    match result.pagination_key with
    | none => some (Except.ok data, tr, h)
    | some _ => none
  | f + 1, h, p, result, data, tr =>
    match result.pagination_key with
    | none => some (Except.ok data, tr, h)
    | some key =>
      let h₂ := hset h p (dictSet (hget h p) "pagination_key" key)
      let res := _get server cfg endpoint (hget h₂ p)
      match res.1 with
      | Except.error e => some (Except.error e, tr.append res.2, h₂)
      | Except.ok body =>
        pagAuxH server cfg endpoint f h₂ p body (data ++ body.data) (tr.append res.2)

/-- Paginator `JQuantsClient._get_all_pages` (client.py lines 234-245).
`pref` is the caller's reference to its `params` dictionary (or `none`
for the `params=None` default).  The source first evaluates
`params = dict(params) if params else {}`, allocating a fresh local
dictionary with the caller's entries, then drains the pages. -/
def _get_all_pages (server : String → Params → Nat → Response α) (cfg : RetryConfig)
    (endpoint : String) (h : Heap) (pref : Option Nat) (fuel : Nat) :
    Option (Except GetError (List α) × Trace × Heap) :=
  let initVal := match pref with
    | some r => hget h r
    | none => []
  let h₁ := h ++ [initVal]
  let p := h.length
  let res := _get server cfg endpoint initVal
  match res.1 with
  | Except.error e => some (Except.error e, res.2, h₁)
  | Except.ok body => pagAuxH server cfg endpoint fuel h₁ p body body.data res.2

/-- Endpoint of the daily bars fetch in `get_stock_prices`. -/
def barsEndpoint : String := "/equities/bars/daily"

/-- One day's fetch inside `get_stock_prices` (client.py lines 168-171):
`self._get_all_pages("/equities/bars/daily", params={"date": ...})`.
The date-keyed dictionary literal is allocated fresh for the call; the
final heap is discarded by the caller.  Dates are modelled as day
numbers, `isoformat` as their decimal string. -/
def fetchDay (server : String → Params → Nat → Response α) (cfg : RetryConfig)
    (fuel : Nat) (d : Nat) : Option (Except GetError (List α) × Trace) :=
  match _get_all_pages server cfg barsEndpoint [[("date", toString d)]] (some 0) fuel with
  | none => none
  | some (res, tr, _h) => some (res, tr)

/-- Day loop of `JQuantsClient.get_stock_prices` (client.py lines
163-197): `acc` is `all_data`, `cnt` is `consecutive_empty`, `tr` the
effects so far.  A day with records resets the counter and extends the
accumulator; an empty day or a `requests.HTTPError` increments it;
`AuthenticationError` is not an `HTTPError`, so it escapes the
`try`/`except` and aborts the loop.  After each day the source checks
`consecutive_empty >= 10` (breaking without the pacing sleep) and
otherwise sleeps `request_interval` before the next day. -/
def pricesLoop (server : String → Params → Nat → Response α) (cfg : RetryConfig)
    (fuel : Nat) : List Nat → List α → Nat → Trace →
    Option (Except GetError (List α) × Trace)
  | [], acc, _cnt, tr => some (Except.ok acc, tr)
  | d :: ds, acc, cnt, tr =>
    match fetchDay server cfg fuel d with
    | none => none
    | some (Except.error (GetError.auth s m), tr₂) =>
      some (Except.error (GetError.auth s m), tr.append tr₂)
    | some (Except.error (GetError.http _), tr₂) =>
      if 10 ≤ cnt + 1 then some (Except.ok acc, tr.append tr₂)
      else pricesLoop server cfg fuel ds acc (cnt + 1)
        ((tr.append tr₂).addSleep cfg.request_interval)
    | some (Except.ok data, tr₂) =>
      if data.isEmpty then
        if 10 ≤ cnt + 1 then some (Except.ok acc, tr.append tr₂)
        else pricesLoop server cfg fuel ds acc (cnt + 1)
          ((tr.append tr₂).addSleep cfg.request_interval)
      else
        if 10 ≤ (0 : Nat) then some (Except.ok (acc ++ data), tr.append tr₂)
        else pricesLoop server cfg fuel ds (acc ++ data) 0
          ((tr.append tr₂).addSleep cfg.request_interval)

/-- Day iterator `JQuantsClient._date_range` (client.py lines 255-261):
`current = start; while current <= end: yield current; current += 1 day`. -/
def _date_range (start endd : Nat) : List Nat :=
  if _h : start ≤ endd then start :: _date_range (start + 1) endd else []
termination_by endd + 1 - start
decreasing_by omega

/-- Facade operation `JQuantsClient.get_stock_prices` (client.py lines
143-197): iterates `_date_range(start_date, end_date)` with empty
accumulator and zero counter. -/
def get_stock_prices (server : String → Params → Nat → Response α) (cfg : RetryConfig)
    (fuel : Nat) (start_date end_date : Nat) :
    Option (Except GetError (List α) × Trace) :=
  pricesLoop server cfg fuel (_date_range start_date end_date) [] 0 ⟨[], 0⟩

/-- Client state constructed by `JQuantsClient.__init__` (client.py
lines 81-95): the key and the retry configuration. -/
structure Client where
  api_key : String
  retry_config : RetryConfig
deriving Repr, DecidableEq

/-- Constructor `JQuantsClient.from_env` (client.py lines 97-120):
reads `os.environ.get(env_var)` from the environment `env` and raises
`ValueError` with a descriptive message when the result is `None` or
empty (`if not api_key`); otherwise builds the client with that key and
the default retry configuration.  No request is issued. -/
def from_env (env : String → Option String) (env_var : String) : Except String Client :=
  let api_key := (env env_var).getD ""
  if api_key = "" then
    Except.error ("Environment variable " ++ env_var ++ " is not set. Set " ++
      env_var ++ " in the .env file.")
  else
    Except.ok ⟨api_key, {}⟩

/-- A DuckDB database as a map from fully qualified table name to its
rows, as an association list; absent key = table does not exist. -/
abbrev DB (α : Type) := List (String × List α)

/-- Row list of a table, `none` when the table does not exist. -/
def dbGet : DB α → String → Option (List α)
  | [], _ => none
  | (t', rows) :: rest, t => if t' = t then some rows else dbGet rest t

/-- Create or overwrite a table with the given rows. -/
def dbSet : DB α → String → List α → DB α
  | [], t, rows => [(t, rows)]
  | (t', rows') :: rest, t, rows =>
    if t' = t then (t, rows) :: rest else (t', rows') :: dbSet rest t rows

/-- Execute `DROP TABLE IF EXISTS t`. -/
def dbDrop (db : DB α) (t : String) : DB α := db.filter (fun p => p.1 ≠ t)

/-- Storage sink `DuckDBStorage.save` (cli.py lines 81-117).
Replace mode runs `DROP TABLE IF EXISTS` then `CREATE TABLE ... AS
SELECT * FROM df`; append mode runs `CREATE TABLE IF NOT EXISTS ...
WHERE 1=0` then `INSERT INTO ... SELECT * FROM df`.  Returns the new
database and `SELECT COUNT(*)` of the target table after saving. -/
def save (db : DB α) (df : List α) (table_name : String)
    (schema : String := "raw") (replace : Bool := true) : DB α × Nat :=
  let full_table := schema ++ "." ++ table_name
  if replace then
    let db₁ := dbSet (dbDrop db full_table) full_table df
    (db₁, ((dbGet db₁ full_table).getD []).length)
  else
    let db₁ := match dbGet db full_table with
      | some _ => db
      | none => dbSet db full_table []
    let db₂ := dbSet db₁ full_table (((dbGet db₁ full_table).getD []) ++ df)
    (db₂, ((dbGet db₂ full_table).getD []).length)

/-- Whether a day-level result is an `AuthenticationError`. -/
def isAuthErr : Except GetError (List α) → Bool
  | Except.error (GetError.auth _ _) => true
  | _ => false

/-- Whether a day-level result is an empty-or-failed day in the sense of
the early-stop counter: zero records, or any `requests.HTTPError`. -/
def emptyOrFailed : Except GetError (List α) → Bool
  | Except.ok data => data.isEmpty
  | Except.error (GetError.http _) => true
  | Except.error (GetError.auth _ _) => false

/-- Records a day's result contributes to the accumulator. -/
def dayRecords : Except GetError (List α) → List α
  | Except.ok data => data
  | Except.error _ => []

/-- Counter update for one day: reset to 0 on a day with at least one
record, increment on an empty day or an `HTTPError`. -/
def dayCount (cnt : Nat) : Except GetError (List α) → Nat
  | Except.ok data => if data.isEmpty then cnt + 1 else 0
  | Except.error _ => cnt + 1

/-- Outcome of a date-range extraction as described by the spec. -/
structure SpecRun (α : Type) where
  records : List α
  sleeps : List ℚ
  calls : Nat
  visited : Nat
deriving Repr, DecidableEq

/-- Specification-side date-range extraction, stated from the words of
spec section 4.3 for comparison with the code's loop: for each day in
order, fetch the day (`g` gives the day's result and its effect trace);
at least one record appends them all and resets the consecutive
empty-or-failed counter to 0, an empty day or an HTTP-level failure
increments it; when the counter reaches the threshold 10, stop at once,
skipping the remaining days; otherwise pause `interval` between days
regardless of outcome.  `visited` counts the days iterated. -/
def specExtract (g : Nat → Except GetError (List α) × Trace) (interval : ℚ) :
    List Nat → Nat → SpecRun α
  | [], _cnt => ⟨[], [], 0, 0⟩
  | d :: ds, cnt =>
    match g d with
    | (Except.ok data, tr) =>
      if data.isEmpty then
        if 10 ≤ cnt + 1 then ⟨[], tr.sleeps, tr.calls, 1⟩
        else
          let rest := specExtract g interval ds (cnt + 1)
          ⟨rest.records, tr.sleeps ++ interval :: rest.sleeps,
            tr.calls + rest.calls, rest.visited + 1⟩
      else
        let rest := specExtract g interval ds 0
        ⟨data ++ rest.records, tr.sleeps ++ interval :: rest.sleeps,
          tr.calls + rest.calls, rest.visited + 1⟩
    | (Except.error _, tr) =>
      if 10 ≤ cnt + 1 then ⟨[], tr.sleeps, tr.calls, 1⟩
      else
        let rest := specExtract g interval ds (cnt + 1)
        ⟨rest.records, tr.sleeps ++ interval :: rest.sleeps,
          tr.calls + rest.calls, rest.visited + 1⟩

/-- Description of a server serving a cursor chain: starting from
parameters `ps` whose response was `b`, the remaining pages are `rest`.
A response carrying cursor `c` is followed by a page obtained at the
parameters with `c` merged under the fixed key `"pagination_key"`,
answered with status 200 on the first attempt; a response without a
cursor is the last page. -/
def chainFrom [DecidableEq α] (server : String → Params → Nat → Response α)
    (endpoint : String) : Params → Body α → List (Body α) → Bool
  | _ps, b, [] =>
    match b.pagination_key with
    | none => true
    | some _ => false
  | ps, b, b' :: rest =>
    match b.pagination_key with
    | none => false
    | some c =>
      let ps' := dictSet ps "pagination_key" c
      decide ((server endpoint ps' 0).status = 200) &&
        decide ((server endpoint ps' 0).body = b') &&
        chainFrom server endpoint ps' b' rest

/-! Helper lemmas on the database model. -/

theorem dbGet_dbSet_self (db : DB α) (t : String) (rows : List α) :
    dbGet (dbSet db t rows) t = some rows := by
  induction db with
  | nil => simp [dbGet, dbSet]
  | cons hd tl ih =>
    by_cases h : hd.1 = t
    · simp [dbGet, dbSet, h]
    · simp [dbGet, dbSet, h, ih]

/-- Claim C6: for all windows with `start_date > end_date`, the day
iterator produces no dates and `get_stock_prices` returns an empty
result with zero sleeps and zero HTTP calls. -/
theorem c6_empty_window (server : String → Params → Nat → Response α)
    (cfg : RetryConfig) (fuel start_date end_date : Nat)
    (hlt : end_date < start_date) :
    _date_range start_date end_date = [] ∧
    get_stock_prices server cfg fuel start_date end_date =
      some (Except.ok ([] : List α), ⟨[], 0⟩) := by
  have hdr : _date_range start_date end_date = [] := by
    rw [_date_range]
    simp [Nat.not_le.mpr hlt]
  exact ⟨hdr, by simp [get_stock_prices, hdr, pricesLoop]⟩

theorem c6_empty_window_witness :
    _date_range 5 3 = [] ∧
    get_stock_prices (α := Nat) (fun _ _ _ => ⟨200, ⟨[1], none⟩, ""⟩) {} 9 5 3 =
      some (Except.ok [], ⟨[], 0⟩) :=
  c6_empty_window _ _ _ _ _ (by decide)

/-- Claim C8: `from_env` fails with a configuration error carrying a
nonempty descriptive message whenever the credential environment
variable is absent (no silent empty-credential default), and returns a
client built with the key when the variable is present and non-empty.
The definition issues no request, so the failure precedes any network
activity. -/
theorem c8_from_env (env : String → Option String) (env_var : String) :
    (env env_var = none →
      ∃ msg : String, from_env env env_var = Except.error msg ∧ msg ≠ "") ∧
    (∀ k : String, env env_var = some k → k ≠ "" →
      from_env env env_var = Except.ok ⟨k, {}⟩) := by
  constructor
  · intro h
    refine ⟨"Environment variable " ++ env_var ++ " is not set. Set " ++
      env_var ++ " in the .env file.", by simp [from_env, h], ?_⟩
    intro hc
    have hlen := congrArg String.length hc
    have hbase : ("Environment variable " : String).length = 21 := by decide
    simp [String.length_append, hbase] at hlen
  · intro k hk hne
    simp [from_env, hk, hne]

theorem c8_from_env_witness :
    (∃ msg : String,
      from_env (fun _ => none) "JQUANTS_API_KEY" = Except.error msg ∧ msg ≠ "") ∧
    from_env (fun _ => some "secret-key") "JQUANTS_API_KEY" =
      Except.ok ⟨"secret-key", {}⟩ :=
  ⟨(c8_from_env (fun _ => none) "JQUANTS_API_KEY").1 rfl,
    (c8_from_env (fun _ => some "secret-key") "JQUANTS_API_KEY").2 "secret-key" rfl
      (by decide)⟩

/-- Claim C9: a `save` followed by the row-count query of the target
table returns exactly the number of records passed in when replace mode
is used, regardless of the prior contents, and the prior row count plus
the number of records passed in when append mode is used (an absent
table counting as zero prior rows). -/
theorem c9_save_rowcount (db : DB α) (df : List α) (table_name schema : String) :
    (save db df table_name schema true).2 = df.length ∧
    (save db df table_name schema false).2 =
      ((dbGet db (schema ++ "." ++ table_name)).getD []).length + df.length := by
  constructor
  · simp [save, dbGet_dbSet_self]
  · cases hdb : dbGet db (schema ++ "." ++ table_name) with
    | none => simp [save, hdb, dbGet_dbSet_self]
    | some rows => simp [save, hdb, dbGet_dbSet_self]

/-- Claim C2: a 401/403 response makes the transport raise
`AuthenticationError` on that very attempt, carrying the status and the
server-provided message, with zero retries and zero sleeps; and in
`get_stock_prices` a day failing with `AuthenticationError` aborts the
extraction immediately — the result neither absorbs the error nor
depends on the remaining days of the range. -/
theorem c2_auth_error_aborts {α : Type} :
    (∀ (server : String → Params → Nat → Response α) (cfg : RetryConfig)
        (endpoint : String) (ps : Params),
      1 ≤ cfg.max_retries →
      ((server endpoint ps 0).status = 401 ∨ (server endpoint ps 0).status = 403) →
      _get server cfg endpoint ps =
        (Except.error (GetError.auth (server endpoint ps 0).status
          (server endpoint ps 0).message), ⟨[], 1⟩)) ∧
    (∀ (server : String → Params → Nat → Response α) (cfg : RetryConfig)
        (fuel d : Nat) (ds ds' : List Nat) (acc : List α) (cnt : Nat) (tr : Trace)
        (s : Nat) (m : String) (tr₂ : Trace),
      fetchDay server cfg fuel d = some (Except.error (GetError.auth s m), tr₂) →
      pricesLoop server cfg fuel (d :: ds) acc cnt tr =
        some (Except.error (GetError.auth s m), tr.append tr₂) ∧
      pricesLoop server cfg fuel (d :: ds) acc cnt tr =
        pricesLoop server cfg fuel (d :: ds') acc cnt tr) := by
  constructor
  · intro server cfg endpoint ps hmr hstat
    obtain ⟨r, hr⟩ : ∃ r, cfg.max_retries = r + 1 := ⟨cfg.max_retries - 1, by omega⟩
    rcases hstat with h | h <;> simp [_get, hr, getAttempts, h]
  · intro server cfg fuel d ds ds' acc cnt tr s m tr₂ hday
    constructor <;> simp [pricesLoop, hday]

theorem c2_auth_error_aborts_witness :
    _get (α := Nat) (fun _ _ _ => ⟨401, ⟨[], none⟩, "invalid key"⟩) ⟨3, 3, 1⟩
        "/equities/master" [] =
      (Except.error (GetError.auth 401 "invalid key"), ⟨[], 1⟩) ∧
    pricesLoop (α := Nat) (fun _ _ _ => ⟨401, ⟨[], none⟩, "invalid key"⟩) ⟨3, 3, 1⟩
        2 [1, 2, 3] [] 0 ⟨[], 0⟩ =
      some (Except.error (GetError.auth 401 "invalid key"),
        Trace.append ⟨[], 0⟩ ⟨[], 1⟩) ∧
    pricesLoop (α := Nat) (fun _ _ _ => ⟨401, ⟨[], none⟩, "invalid key"⟩) ⟨3, 3, 1⟩
        2 [1, 2, 3] [] 0 ⟨[], 0⟩ =
      pricesLoop (fun _ _ _ => ⟨401, ⟨[], none⟩, "invalid key"⟩) ⟨3, 3, 1⟩
        2 [1, 99] [] 0 ⟨[], 0⟩ := by
  refine ⟨c2_auth_error_aborts.1 _ _ _ _ (by decide) (Or.inl (by decide)), ?_⟩
  exact c2_auth_error_aborts.2 _ _ _ _ [2, 3] [99] _ _ _ 401 "invalid key" ⟨[], 1⟩
    (by decide)

/-- Claim C7: after every iterated day that does not trigger the
early stop — whether the day yielded records, zero records, or failed
with an `HTTPError` — exactly one pacing sleep of
`request_interval` seconds is appended after that day's own effect
trace (which contains any retry-backoff sleeps) before the next day is
processed. -/
theorem c7_pacing_between_days (server : String → Params → Nat → Response α)
    (cfg : RetryConfig) (fuel d : Nat) (ds : List Nat) (acc : List α)
    (cnt : Nat) (tr : Trace) (res : Except GetError (List α)) (tr₂ : Trace)
    (hday : fetchDay server cfg fuel d = some (res, tr₂))
    (hnoauth : isAuthErr res = false)
    (hnohalt : dayCount cnt res < 10) :
    pricesLoop server cfg fuel (d :: ds) acc cnt tr =
      pricesLoop server cfg fuel ds (acc ++ dayRecords res) (dayCount cnt res)
        ((tr.append tr₂).addSleep cfg.request_interval) := by
  match res with
  | Except.ok data =>
    by_cases hdata : data.isEmpty
    · have hd : data = [] := by simpa [List.isEmpty_iff] using hdata
      subst hd
      have hle : ¬ 10 ≤ cnt + 1 := by simp [dayCount] at hnohalt; omega
      simp [pricesLoop, hday, hle, dayRecords, dayCount]
    · simp [pricesLoop, hday, hdata, dayRecords, dayCount]
  | Except.error (GetError.http s) =>
    have hle : ¬ 10 ≤ cnt + 1 := by simp [dayCount] at hnohalt; omega
    simp [pricesLoop, hday, hle, dayRecords, dayCount]
  | Except.error (GetError.auth s m) => simp [isAuthErr] at hnoauth

theorem c7_pacing_between_days_witness :
    pricesLoop (α := Nat) (fun _ _ _ => ⟨200, ⟨[], none⟩, ""⟩) ⟨3, 3, 1⟩ 5
        [1, 2] [] 0 ⟨[], 0⟩ =
      pricesLoop (fun _ _ _ => ⟨200, ⟨[], none⟩, ""⟩) ⟨3, 3, 1⟩ 5
        [2] ([] ++ dayRecords (Except.ok [])) (dayCount 0 (Except.ok ([] : List Nat)))
        ((Trace.append ⟨[], 0⟩ ⟨[], 1⟩).addSleep 1) :=
  c7_pacing_between_days _ _ _ 1 [2] [] 0 ⟨[], 0⟩ (Except.ok []) ⟨[], 1⟩
    (by decide) (by decide) (by decide)

/-- Decomposition of the linear-backoff sleep ladder at its first entry. -/
theorem backoff_range_succ (delay : ℚ) (a m : Nat) :
    (List.range (m + 1)).map (fun i => delay * (((a + i : Nat) : ℚ) + 1)) =
      delay * ((a : ℚ) + 1) ::
        (List.range m).map (fun i => delay * (((a + 1 + i : Nat) : ℚ) + 1)) := by
  rw [List.range_succ_eq_map, List.map_cons, List.map_map]
  refine congrArg₂ List.cons (by push_cast; ring) ?_
  congr 1
  funext i
  simp only [Function.comp]
  push_cast
  ring

/-- All-attempts-rate-limited run of the `_get` attempt loop: when every
remaining attempt answers 429, the loop sleeps the linear backoff for
each attempt and finally re-raises the last response's HTTP failure,
an `HTTPError` with status 429. -/
theorem getAttempts_all429 (server : String → Params → Nat → Response α) (delay : ℚ)
    (endpoint : String) (ps : Params) :
    ∀ (n a : Nat), (∀ i, i < n → (server endpoint ps (a + i)).status = 429) →
    getAttempts server delay endpoint ps a n =
      (Except.error (GetError.http 429),
        ⟨(List.range n).map (fun i => delay * (((a + i : Nat) : ℚ) + 1)), n⟩) := by
  intro n
  induction n with
  | zero => intro a _; simp [getAttempts]
  | succ m ih =>
    intro a h
    have h0 : (server endpoint ps a).status = 429 := by simpa using h 0 (by omega)
    have hrest := ih (a + 1) (fun i hi => by
      have := h (i + 1) (by omega)
      simpa [Nat.add_assoc, Nat.add_comm 1 i] using this)
    rw [backoff_range_succ]
    simp [getAttempts, h0, hrest]

/-- Claim C4: when all `max_retries` attempts of a transport call
receive status 429, the final attempt's HTTP failure is raised as-is —
an `HTTPError` with status 429, after the full ladder of backoff
sleeps, not swallowed and not a success; and when a day's bars fetch
fails with an `HTTPError`, `get_stock_prices` absorbs it as an empty
day: the counter is incremented and no exception reaches the caller. -/
theorem c4_rate_limit_exhausted {α : Type} :
    (∀ (server : String → Params → Nat → Response α) (cfg : RetryConfig)
        (endpoint : String) (ps : Params),
      1 ≤ cfg.max_retries →
      (∀ i, i < cfg.max_retries → (server endpoint ps i).status = 429) →
      _get server cfg endpoint ps =
        (Except.error (GetError.http 429),
          ⟨(List.range cfg.max_retries).map (fun i : ℕ => cfg.retry_delay * ((i : ℚ) + 1)),
            cfg.max_retries⟩)) ∧
    (∀ (server : String → Params → Nat → Response α) (cfg : RetryConfig)
        (fuel d : Nat) (ds : List Nat) (acc : List α) (cnt : Nat) (tr : Trace)
        (s : Nat) (tr₂ : Trace),
      fetchDay server cfg fuel d = some (Except.error (GetError.http s), tr₂) →
      pricesLoop server cfg fuel (d :: ds) acc cnt tr =
        (if 10 ≤ cnt + 1 then some (Except.ok acc, tr.append tr₂)
         else pricesLoop server cfg fuel ds acc (cnt + 1)
           ((tr.append tr₂).addSleep cfg.request_interval))) := by
  constructor
  · intro server cfg endpoint ps _hmr h429
    have h := getAttempts_all429 server cfg.retry_delay endpoint ps cfg.max_retries 0
      (fun i hi => by simpa using h429 i hi)
    simp only [_get]
    rw [h]
    simp only [Nat.zero_add]
  · intro server cfg fuel d ds acc cnt tr s tr₂ hday
    simp [pricesLoop, hday]

theorem c4_rate_limit_exhausted_witness :
    _get (α := Nat) (fun _ _ _ => ⟨429, ⟨[], none⟩, "slow down"⟩) ⟨2, 3, 1⟩ "/x" [] =
      (Except.error (GetError.http 429),
        ⟨(List.range 2).map (fun i : ℕ => (3 : ℚ) * ((i : ℚ) + 1)), 2⟩) ∧
    pricesLoop (α := Nat) (fun _ _ _ => ⟨500, ⟨[], none⟩, "boom"⟩) ⟨3, 3, 1⟩
        4 [1, 2] [] 0 ⟨[], 0⟩ =
      (if 10 ≤ 0 + 1 then
        some (Except.ok [], Trace.append ⟨[], 0⟩ ⟨[], 1⟩)
       else pricesLoop (fun _ _ _ => ⟨500, ⟨[], none⟩, "boom"⟩) ⟨3, 3, 1⟩ 4 [2] [] (0 + 1)
        ((Trace.append ⟨[], 0⟩ ⟨[], 1⟩).addSleep 1)) :=
  ⟨c4_rate_limit_exhausted.1 _ _ _ _ (by decide) (by decide),
    c4_rate_limit_exhausted.2 _ _ _ _ _ _ _ _ 500 ⟨[], 1⟩ (by decide)⟩

/-- Run of the `_get` attempt loop that is rate-limited on its first `k`
remaining attempts and succeeds on the next one: it returns that
attempt's body after the `k` linear-backoff sleeps. -/
theorem getAttempts_429_then_ok (server : String → Params → Nat → Response α) (delay : ℚ)
    (endpoint : String) (ps : Params) :
    ∀ (k a rem : Nat), k < rem →
    (∀ i, i < k → (server endpoint ps (a + i)).status = 429) →
    (server endpoint ps (a + k)).status < 400 →
    getAttempts server delay endpoint ps a rem =
      (Except.ok (server endpoint ps (a + k)).body,
        ⟨(List.range k).map (fun i => delay * (((a + i : Nat) : ℚ) + 1)), k + 1⟩) := by
  intro k
  induction k with
  | zero =>
    intro a rem hrem _h429 hok
    obtain ⟨r, hr⟩ : ∃ r, rem = r + 1 := ⟨rem - 1, by omega⟩
    subst hr
    simp only [Nat.add_zero] at hok
    have h1 : ¬ ((server endpoint ps a).status = 401 ∨
        (server endpoint ps a).status = 403) := by omega
    have h2 : ¬ (server endpoint ps a).status = 429 := by omega
    have h3 : ¬ (400 ≤ (server endpoint ps a).status ∧
        (server endpoint ps a).status < 600) := by omega
    simp [getAttempts, h1, h2, h3]
  | succ m ih =>
    intro a rem hrem h429 hok
    obtain ⟨r, hr⟩ : ∃ r, rem = r + 1 := ⟨rem - 1, by omega⟩
    subst hr
    have h0 : (server endpoint ps a).status = 429 := by simpa using h429 0 (by omega)
    have hrest := ih (a + 1) r (by omega)
      (fun i hi => by
        have := h429 (i + 1) (by omega)
        simpa [Nat.add_assoc, Nat.add_comm 1 i] using this)
      (by rw [show a + 1 + m = a + (m + 1) by omega]; exact hok)
    rw [show a + (m + 1) = a + 1 + m by omega, backoff_range_succ]
    simp [getAttempts, h0, hrest]

/-- Claim C3: if the endpoint answers 429 on the first `k < max_retries`
attempts and a success status on attempt `k + 1`, the transport call
returns that attempt's JSON body, has issued `k + 1` requests, and has
performed exactly `k` backoff sleeps of durations
`retry_delay * 1, retry_delay * 2, ..., retry_delay * k`, which are
strictly increasing. -/
theorem c3_rate_limited_then_success (server : String → Params → Nat → Response α)
    (cfg : RetryConfig) (endpoint : String) (ps : Params) (k : Nat)
    (hk : k < cfg.max_retries)
    (h429 : ∀ i, i < k → (server endpoint ps i).status = 429)
    (hok : (server endpoint ps k).status < 400)
    (hdelay : 0 < cfg.retry_delay) :
    _get server cfg endpoint ps =
      (Except.ok (server endpoint ps k).body,
        ⟨(List.range k).map (fun i : ℕ => cfg.retry_delay * ((i : ℚ) + 1)), k + 1⟩) ∧
    ((List.range k).map (fun i : ℕ => cfg.retry_delay * ((i : ℚ) + 1))).Pairwise (· < ·) := by
  constructor
  · have h := getAttempts_429_then_ok server cfg.retry_delay endpoint ps k 0 cfg.max_retries hk
      (fun i hi => by simpa using h429 i hi) (by simpa using hok)
    simp only [_get]
    rw [h]
    simp only [Nat.zero_add]
  · have hp : (List.range k).Pairwise (· < ·) := List.pairwise_lt_range k
    refine hp.map _ (fun a b hab => ?_)
    have hq : (a : ℚ) < (b : ℚ) := by exact_mod_cast hab
    exact mul_lt_mul_of_pos_left (add_lt_add_right hq 1) hdelay

theorem c3_rate_limited_then_success_witness :
    _get (α := Nat)
        (fun _ _ att => if att < 2 then ⟨429, ⟨[], none⟩, ""⟩ else ⟨200, ⟨[5, 6], none⟩, ""⟩)
        ⟨3, 3, 1⟩ "/x" [] =
      (Except.ok ⟨[5, 6], none⟩,
        ⟨(List.range 2).map (fun i : ℕ => (3 : ℚ) * ((i : ℚ) + 1)), 3⟩) ∧
    ((List.range 2).map (fun i : ℕ => (3 : ℚ) * ((i : ℚ) + 1))).Pairwise (· < ·) :=
  c3_rate_limited_then_success _ _ _ _ 2 (by decide) (by decide) (by decide) (by decide)

/-! Helper lemmas on the heap of dictionaries. -/

theorem hget_append_self (h : Heap) (v : Params) : hget (h ++ [v]) h.length = v := by
  induction h with
  | nil => rfl
  | cons hd tl ih =>
    simp only [List.cons_append, List.length_cons, hget, List.getD_cons_succ]
    exact ih

theorem hget_append_lt (h : Heap) (v : Params) (i : Nat) (hi : i < h.length) :
    hget (h ++ [v]) i = hget h i := by
  induction h generalizing i with
  | nil => simp at hi
  | cons hd tl ih =>
    cases i with
    | zero => rfl
    | succ j =>
      simp only [List.cons_append, hget, List.getD_cons_succ]
      exact ih j (by simpa using hi)

theorem hset_length (h : Heap) (p : Nat) (v : Params) :
    (hset h p v).length = h.length := by
  simp [hset]

theorem hget_hset_self (h : Heap) (p : Nat) (v : Params) (hp : p < h.length) :
    hget (hset h p v) p = v := by
  induction h generalizing p with
  | nil => simp at hp
  | cons hd tl ih =>
    cases p with
    | zero => rfl
    | succ q =>
      simp only [hset, List.set_cons_succ, hget, List.getD_cons_succ]
      exact ih q (by simpa using hp)

theorem hget_hset_ne (h : Heap) (p i : Nat) (v : Params) (hne : i ≠ p) :
    hget (hset h p v) i = hget h i := by
  induction h generalizing p i with
  | nil => simp [hset, hget]
  | cons hd tl ih =>
    cases p with
    | zero =>
      cases i with
      | zero => exact absurd rfl hne
      | succ j => simp [hset, hget, List.getD_cons_succ]
    | succ q =>
      cases i with
      | zero => simp [hset, hget]
      | succ j =>
        simp only [hset, List.set_cons_succ, hget, List.getD_cons_succ]
        exact ih q j (fun hc => hne (congrArg Nat.succ hc))

/-- A request answered with status 200 on its first attempt succeeds at
once: one HTTP call, no sleeps, and the body of that response. -/
theorem _get_ok_first (server : String → Params → Nat → Response α)
    (cfg : RetryConfig) (endpoint : String) (ps : Params)
    (hmr : 1 ≤ cfg.max_retries)
    (h200 : (server endpoint ps 0).status = 200) :
    _get server cfg endpoint ps = (Except.ok (server endpoint ps 0).body, ⟨[], 1⟩) := by
  obtain ⟨r, hr⟩ : ∃ r, cfg.max_retries = r + 1 := ⟨cfg.max_retries - 1, by omega⟩
  simp [_get, hr, getAttempts, h200]

/-- Chain run of the pagination loop: when the server serves the cursor
chain `rest` from the current parameters and the fuel covers it, the
loop appends the chained pages' records in order, one further HTTP call
each, and stops at the cursor-free page. -/
theorem pagAuxH_chain [DecidableEq α] (server : String → Params → Nat → Response α)
    (cfg : RetryConfig) (endpoint : String) (hmr : 1 ≤ cfg.max_retries) :
    ∀ (rest : List (Body α)) (fuel : Nat) (h : Heap) (p : Nat) (b : Body α)
      (data : List α) (tr : Trace),
    p < h.length →
    chainFrom server endpoint (hget h p) b rest = true →
    rest.length ≤ fuel →
    ∃ h' : Heap, pagAuxH server cfg endpoint fuel h p b data tr =
      some (Except.ok (data ++ (rest.map Body.data).flatten),
        ⟨tr.sleeps, tr.calls + rest.length⟩, h') := by
  intro rest
  induction rest with
  | nil =>
    intro fuel h p b data tr hp hchain _hfuel
    match hbk : b.pagination_key with
    | some c => simp [chainFrom, hbk] at hchain
    | none =>
      refine ⟨h, ?_⟩
      cases fuel <;> simp [pagAuxH, hbk]
  | cons b' rest' ih =>
    intro fuel h p b data tr hp hchain hfuel
    match hbk : b.pagination_key with
    | none => simp [chainFrom, hbk] at hchain
    | some c =>
      obtain ⟨f, hf⟩ : ∃ f, fuel = f + 1 := ⟨fuel - 1, by simp at hfuel; omega⟩
      subst hf
      simp only [chainFrom, hbk, Bool.and_eq_true, decide_eq_true_eq] at hchain
      obtain ⟨⟨h200, hbody⟩, hrest⟩ := hchain
      have hps : hget (hset h p (dictSet (hget h p) "pagination_key" c)) p =
          dictSet (hget h p) "pagination_key" c := hget_hset_self _ _ _ hp
      have hg := _get_ok_first server cfg endpoint
        (dictSet (hget h p) "pagination_key" c) hmr h200
      obtain ⟨h', hrec⟩ := ih f (hset h p (dictSet (hget h p) "pagination_key" c)) p b'
        (data ++ b'.data) (tr.append ⟨[], 1⟩)
        (by simpa [hset] using hp)
        (by rw [hps]; exact hrest)
        (by simp at hfuel ⊢; omega)
      refine ⟨h', ?_⟩
      simp only [pagAuxH, hbk]
      rw [hps, hg, hbody]
      dsimp only
      rw [hrec]
      refine congrArg some (congrArg₂ Prod.mk (by simp [List.append_assoc])
        (congrArg₂ Prod.mk ?_ rfl))
      simp [Trace.append, Trace.mk.injEq]
      omega

/-- Claim C5: for every sequence of page responses in which every page
but the last carries a pagination cursor and the last omits it, the
paginator returns the concatenation of all pages' record lists in page
order — each response's cursor echoed back into the next request's
parameters under the fixed key `"pagination_key"` (the shape recorded by
`chainFrom`) — issuing one HTTP call per page and terminating exactly at
the first cursor-free response. -/
theorem c5_pagination_concatenates [DecidableEq α]
    (server : String → Params → Nat → Response α) (cfg : RetryConfig)
    (endpoint : String) (h : Heap) (r : Nat) (b : Body α)
    (rest : List (Body α)) (fuel : Nat)
    (hmr : 1 ≤ cfg.max_retries)
    (h200 : (server endpoint (hget h r) 0).status = 200)
    (hbody : (server endpoint (hget h r) 0).body = b)
    (hchain : chainFrom server endpoint (hget h r) b rest = true)
    (hfuel : rest.length ≤ fuel) :
    ∃ h' : Heap, _get_all_pages server cfg endpoint h (some r) fuel =
      some (Except.ok (b.data ++ (rest.map Body.data).flatten),
        ⟨[], rest.length + 1⟩, h') := by
  have hp : hget (h ++ [hget h r]) h.length = hget h r := hget_append_self _ _
  have hg := _get_ok_first server cfg endpoint (hget h r) hmr h200
  obtain ⟨h', hrec⟩ := pagAuxH_chain server cfg endpoint hmr rest fuel
    (h ++ [hget h r]) h.length b b.data ⟨[], 1⟩
    (by simp)
    (by rw [hp]; exact hchain)
    hfuel
  refine ⟨h', ?_⟩
  simp only [_get_all_pages]
  rw [hg, hbody]
  simp only []
  rw [hrec]
  refine congrArg some (congrArg₂ Prod.mk rfl (congrArg₂ Prod.mk ?_ rfl))
  simp [Trace.mk.injEq]
  omega

/-- Server of a concrete 3-page paginated response: cursor on pages 1
and 2, omitted on page 3. -/
def threePageServer : String → Params → Nat → Response Nat :=
  fun _endpoint ps _attempt =>
    match dictGet ps "pagination_key" with
    | none => ⟨200, ⟨[1, 2], some "c1"⟩, ""⟩
    | some cur =>
      if cur = "c1" then ⟨200, ⟨[3], some "c2"⟩, ""⟩
      else ⟨200, ⟨[4, 5], none⟩, ""⟩

theorem c5_pagination_concatenates_witness :
    ∃ h' : Heap, _get_all_pages threePageServer ⟨3, 3, 1⟩ "/equities/master"
        [[]] (some 0) 2 =
      some (Except.ok
        (Body.data ⟨[1, 2], some "c1"⟩ ++
          (List.map Body.data [⟨[3], some "c2"⟩, (⟨[4, 5], none⟩ : Body Nat)]).flatten),
        ⟨[], 2 + 1⟩, h') :=
  c5_pagination_concatenates threePageServer ⟨3, 3, 1⟩ "/equities/master"
    [[]] 0 ⟨[1, 2], some "c1"⟩ [⟨[3], some "c2"⟩, ⟨[4, 5], none⟩] 2
    (by decide) (by decide) (by decide) (by decide) (by decide)

/-- Frame property of the pagination loop: it writes only through the
local reference `p`, so every other reference keeps its dictionary. -/
theorem pagAuxH_heap_frame (server : String → Params → Nat → Response α)
    (cfg : RetryConfig) (endpoint : String) :
    ∀ (fuel : Nat) (h : Heap) (p : Nat) (b : Body α) (data : List α) (tr : Trace)
      (out : Except GetError (List α) × Trace × Heap),
    pagAuxH server cfg endpoint fuel h p b data tr = some out →
    ∀ i, i ≠ p → hget out.2.2 i = hget h i := by
  intro fuel
  induction fuel with
  | zero =>
    intro h p b data tr out hout i hne
    match hbk : b.pagination_key with
    | some c => simp [pagAuxH, hbk] at hout
    | none =>
      simp only [pagAuxH, hbk, Option.some.injEq] at hout
      rw [← hout]
  | succ f ih =>
    intro h p b data tr out hout i hne
    match hbk : b.pagination_key with
    | none =>
      simp only [pagAuxH, hbk, Option.some.injEq] at hout
      rw [← hout]
    | some c =>
      simp only [pagAuxH, hbk] at hout
      cases hres : (_get server cfg endpoint
          (hget (hset h p (dictSet (hget h p) "pagination_key" c)) p)).1 with
      | error e =>
        rw [hres] at hout
        simp only [Option.some.injEq] at hout
        rw [← hout]
        exact hget_hset_ne h p i _ hne
      | ok body =>
        rw [hres] at hout
        have hi := ih (hset h p (dictSet (hget h p) "pagination_key" c)) p body
          (data ++ body.data)
          (tr.append (_get server cfg endpoint
            (hget (hset h p (dictSet (hget h p) "pagination_key" c)) p)).2)
          out hout i hne
        rw [hi]
        exact hget_hset_ne h p i _ hne

/-- Claim C10: the paginator never mutates the dictionary supplied by
its caller.  The cursor key is merged into a freshly allocated copy
(reference `h.length`), so after the call every pre-existing reference —
in particular the caller's — still holds the dictionary it held before;
the per-day date dictionaries of `get_stock_prices` therefore cannot
accumulate a `"pagination_key"` across days. -/
theorem c10_caller_params_not_mutated (server : String → Params → Nat → Response α)
    (cfg : RetryConfig) (endpoint : String) (h : Heap) (r fuel : Nat)
    (out : Except GetError (List α) × Trace × Heap)
    (hout : _get_all_pages server cfg endpoint h (some r) fuel = some out) :
    ∀ i, i < h.length → hget out.2.2 i = hget h i := by
  intro i hi
  simp only [_get_all_pages] at hout
  cases hres : (_get server cfg endpoint (hget h r)).1 with
  | error e =>
    rw [hres] at hout
    simp only [Option.some.injEq] at hout
    rw [← hout]
    exact hget_append_lt h _ i hi
  | ok body =>
    rw [hres] at hout
    have hframe := pagAuxH_heap_frame server cfg endpoint fuel (h ++ [hget h r])
      h.length body body.data (_get server cfg endpoint (hget h r)).2 out hout i
      (by omega)
    rw [hframe]
    exact hget_append_lt h _ i hi

theorem c10_caller_params_not_mutated_witness :
    hget [[("date", "7")], [("date", "7")]] 0 = hget [[("date", "7")]] 0 :=
  c10_caller_params_not_mutated (α := Nat) (fun _ _ _ => ⟨200, ⟨[9], none⟩, ""⟩)
    ⟨3, 3, 1⟩ "/equities/bars/daily" [[("date", "7")]] 0 0
    (Except.ok [9], ⟨[], 1⟩, [[("date", "7")], [("date", "7")]])
    (by decide) 0 (by decide)

/-- Refinement of the day loop of `get_stock_prices` against the
specification-side extraction `specExtract`: for every per-day outcome
function `g` realised by the server (and free of authentication
failures), the loop returns exactly the records, sleeps and call count
predicted by the specification's counter rules. -/
theorem pricesLoop_eq_specExtract (server : String → Params → Nat → Response α)
    (cfg : RetryConfig) (fuel : Nat) (g : Nat → Except GetError (List α) × Trace) :
    ∀ (dates : List Nat),
    (∀ d ∈ dates, fetchDay server cfg fuel d = some (g d)) →
    (∀ d ∈ dates, isAuthErr (g d).1 = false) →
    ∀ (acc : List α) (cnt : Nat) (tr : Trace),
    pricesLoop server cfg fuel dates acc cnt tr =
      some (Except.ok (acc ++ (specExtract g cfg.request_interval dates cnt).records),
        ⟨tr.sleeps ++ (specExtract g cfg.request_interval dates cnt).sleeps,
          tr.calls + (specExtract g cfg.request_interval dates cnt).calls⟩) := by
  intro dates
  induction dates with
  | nil => intro _ _ acc cnt tr; simp [pricesLoop, specExtract]
  | cons d ds ih =>
    intro hg hna acc cnt tr
    have hgd := hg d (by simp)
    have hnad := hna d (by simp)
    have hg' : ∀ x ∈ ds, fetchDay server cfg fuel x = some (g x) :=
      fun x hx => hg x (by simp [hx])
    have hna' : ∀ x ∈ ds, isAuthErr (g x).1 = false :=
      fun x hx => hna x (by simp [hx])
    match hgdres : g d with
    | (Except.ok data, tr₂) =>
      rw [hgdres] at hgd
      by_cases hdata : data.isEmpty
      · by_cases hhalt : 10 ≤ cnt + 1
        · simp [pricesLoop, hgd, hdata, hhalt, specExtract, hgdres, Trace.append]
        · simp [pricesLoop, hgd, hdata, hhalt, specExtract, hgdres,
            ih hg' hna', List.append_assoc, Nat.add_assoc]
      · simp [pricesLoop, hgd, hdata, specExtract, hgdres,
          ih hg' hna', List.append_assoc, Nat.add_assoc]
    | (Except.error (GetError.auth s m), tr₂) =>
      rw [hgdres] at hnad
      simp [isAuthErr] at hnad
    | (Except.error (GetError.http s), tr₂) =>
      rw [hgdres] at hgd
      by_cases hhalt : 10 ≤ cnt + 1
      · simp [pricesLoop, hgd, hhalt, specExtract, hgdres, Trace.append]
      · simp [pricesLoop, hgd, hhalt, specExtract, hgdres,
          ih hg' hna', List.append_assoc, Nat.add_assoc]

/-- When, starting from counter value `cnt < 10`, the next `10 - cnt`
days are all empty-or-failed, the specification-side extraction visits
exactly those `10 - cnt` days and stops. -/
theorem specExtract_visited_of_empty (g : Nat → Except GetError (List α) × Trace)
    (interval : ℚ) :
    ∀ (ds : List Nat) (cnt : Nat), cnt < 10 → 10 - cnt ≤ ds.length →
    (∀ d ∈ ds.take (10 - cnt), emptyOrFailed (g d).1 = true) →
    (specExtract g interval ds cnt).visited = 10 - cnt := by
  intro ds
  induction ds with
  | nil => intro cnt h10 hlen _; simp at hlen; omega
  | cons d ds ih =>
    intro cnt h10 hlen hemp
    obtain ⟨m, hm⟩ : ∃ m, 10 - cnt = m + 1 := ⟨10 - cnt - 1, by omega⟩
    rw [hm] at hemp
    simp only [List.take_succ_cons] at hemp
    have hd : emptyOrFailed (g d).1 = true := hemp d (by simp)
    have htail : ∀ x ∈ ds.take m, emptyOrFailed (g x).1 = true :=
      fun x hx => hemp x (by simp [hx])
    match hgd : g d with
    | (Except.ok data, tr₂) =>
      rw [hgd] at hd
      simp only [emptyOrFailed] at hd
      by_cases hhalt : 10 ≤ cnt + 1
      · have hcnt : cnt = 9 := by omega
        simp [specExtract, hgd, hd, hhalt, hcnt]
      · have hm' : 10 - (cnt + 1) = m := by omega
        have := ih (cnt + 1) (by omega) (by simp at hlen; omega) (by rw [hm']; exact htail)
        simp [specExtract, hgd, hd, hhalt, this]
        omega
    | (Except.error (GetError.auth s msg), tr₂) =>
      rw [hgd] at hd
      simp [emptyOrFailed] at hd
    | (Except.error (GetError.http s), tr₂) =>
      by_cases hhalt : 10 ≤ cnt + 1
      · have hcnt : cnt = 9 := by omega
        simp [specExtract, hgd, hhalt, hcnt]
      · have hm' : 10 - (cnt + 1) = m := by omega
        have := ih (cnt + 1) (by omega) (by simp at hlen; omega) (by rw [hm']; exact htail)
        simp [specExtract, hgd, hhalt, this]
        omega

/-- Claim C1: for every sequence of per-day outcomes over the window
(realised by the server through `g`, with no authentication failures),
the day loop of `get_stock_prices` behaves exactly as the
specification's consecutive empty-or-failed counter prescribes — the
counter resets to 0 on a day with at least one record, increments on a
day with zero records or an `HTTPError`, and iteration halts exactly
when it first reaches 10, returning the records accumulated so far
(`specExtract` is that counter recursion, and the loop equals it); in
particular, over an 11-day window whose first 10 days are all
empty-or-failed, exactly 10 days are visited and day 11 is skipped. -/
theorem c1_consecutive_empty_counter (server : String → Params → Nat → Response α)
    (cfg : RetryConfig) (fuel : Nat) (g : Nat → Except GetError (List α) × Trace)
    (dates : List Nat)
    (hg : ∀ d ∈ dates, fetchDay server cfg fuel d = some (g d))
    (hna : ∀ d ∈ dates, isAuthErr (g d).1 = false) :
    pricesLoop server cfg fuel dates [] 0 ⟨[], 0⟩ =
      some (Except.ok (specExtract g cfg.request_interval dates 0).records,
        ⟨(specExtract g cfg.request_interval dates 0).sleeps,
          (specExtract g cfg.request_interval dates 0).calls⟩) ∧
    (dates.length = 11 →
      (∀ d ∈ dates.take 10, emptyOrFailed (g d).1 = true) →
      (specExtract g cfg.request_interval dates 0).visited = 10) := by
  constructor
  · simpa using pricesLoop_eq_specExtract server cfg fuel g dates hg hna [] 0 ⟨[], 0⟩
  · intro hlen hemp
    have h := specExtract_visited_of_empty g cfg.request_interval dates 0 (by omega)
      (by omega) (by simpa using hemp)
    simpa using h

/-- Server for an 11-day window whose first 10 days have no data and
whose 11th day has one record. -/
def elevenDayServer : String → Params → Nat → Response Nat :=
  fun _endpoint ps _attempt =>
    if dictGet ps "date" = some "11" then ⟨200, ⟨[11], none⟩, ""⟩
    else ⟨200, ⟨[], none⟩, ""⟩

/-- Per-day outcomes realised by `elevenDayServer`. -/
def elevenDayOutcomes : Nat → Except GetError (List Nat) × Trace :=
  fun d => if d = 11 then (Except.ok [11], ⟨[], 1⟩) else (Except.ok [], ⟨[], 1⟩)

theorem c1_consecutive_empty_counter_witness :
    pricesLoop elevenDayServer ⟨3, 3, 1⟩ 0 [1, 2, 3, 4, 5, 6, 7, 8, 9, 10, 11] [] 0 ⟨[], 0⟩ =
      some (Except.ok
        (specExtract elevenDayOutcomes 1 [1, 2, 3, 4, 5, 6, 7, 8, 9, 10, 11] 0).records,
        ⟨(specExtract elevenDayOutcomes 1 [1, 2, 3, 4, 5, 6, 7, 8, 9, 10, 11] 0).sleeps,
          (specExtract elevenDayOutcomes 1 [1, 2, 3, 4, 5, 6, 7, 8, 9, 10, 11] 0).calls⟩) ∧
    (specExtract elevenDayOutcomes 1 [1, 2, 3, 4, 5, 6, 7, 8, 9, 10, 11] 0).visited = 10 := by
  have h := c1_consecutive_empty_counter elevenDayServer ⟨3, 3, 1⟩ 0 elevenDayOutcomes
    [1, 2, 3, 4, 5, 6, 7, 8, 9, 10, 11] (by decide) (by decide)
  exact ⟨h.1, h.2 (by decide) (by decide)⟩

end JQuants
